import Mathlib

/-!
Shallow embedding of the core infrastructure of the QBO-MCP-TS repository
(QuickBooks Online MCP server): the in-process cache (persistent variant of
`CacheService` and the simpler in-memory variant in `src/services/cache.ts`),
the rate-limited queue (`QueueService`, both the p-queue based variant and the
simple rate limiter), and the OAuth2 token lifecycle / HTTP error handling of
`QBOApiClient` (`src/api/client.ts`).

Timestamps are modelled as integers (milliseconds since epoch, like
`Date.now()`).  JavaScript floating-point scores appearing in the cache
eviction heuristic are modelled exactly over `Rat`, with the special values
`NaN` and `Infinity` (which arise from division by a zero age) represented
explicitly by the `JSNum` type, mirroring IEEE comparison semantics.
-/

namespace QBOMCP

/-! ## JavaScript number model for the eviction score

`evictLRU` computes `score = entry.hits / ((Date.now() - entry.createdAt) / 1000)`
and compares it with `score < lruHits` where `lruHits` starts at `Infinity`.
When the age is zero milliseconds this division yields `NaN` (if `hits = 0`)
or `+Infinity` (if `hits > 0`); both compare `false` under `<` against any
accumulator value, exactly as in JavaScript. -/

/-- A JavaScript number as it can appear in the eviction scan: `NaN`,
`+Infinity`, or a finite value (modelled exactly as a rational). -/
inductive JSNum where
  | nan : JSNum
  | inf : JSNum
  | fin : Rat → JSNum
deriving DecidableEq, Repr

/-- JavaScript strict-less-than on the values arising in the eviction scan:
`NaN < x` is `false`, `Infinity < x` is `false` (the scan never produces
`-Infinity`), `finite < Infinity` is `true`, and finite values compare as
rationals. -/
def jsLt : JSNum → JSNum → Bool
  | .nan, _ => false
  | _, .nan => false
  | .inf, _ => false
  | .fin _, .inf => true
  | .fin a, .fin b => a < b

/-- JavaScript `x || d` applied to an optional numeric argument, as in
`ttl || this.defaultTTL`: `undefined` and `0` are both falsy, so they select
the default. -/
def jsOrNat (x : Option Nat) (d : Nat) : Nat :=
  match x with
  | none => d
  | some v => if v = 0 then d else v

/-! ## Association-list model of a JavaScript `Map`

A JS `Map` iterates in insertion order and keeps the original position of a
key when it is overwritten.  We model it as a list of key/value pairs in
insertion order; all reachable states have pairwise distinct keys. -/

/-- `Map.get`: the value stored at `k`, if any. -/
def mapGet {ε : Type} (l : List (String × ε)) (k : String) : Option ε :=
  (l.find? (fun p => p.1 == k)).map Prod.snd

/-- `Map.set`: overwrite the first entry with key `k` in place (preserving its
position, as a JS `Map` does), or append a new entry at the end. -/
def mapSet {ε : Type} (l : List (String × ε)) (k : String) (v : ε) :
    List (String × ε) :=
  match l with
  | [] => [(k, v)]
  | (k', v') :: rest =>
      if k' == k then (k, v) :: rest else (k', v') :: mapSet rest k v

/-- `Map.delete`: remove the (first) entry with key `k`. -/
def mapDelete {ε : Type} (l : List (String × ε)) (k : String) :
    List (String × ε) :=
  l.eraseP (fun p => p.1 == k)

/-! ## Cache data model -/

/-- A cache entry, as in the `CacheEntry` interface: the normalized key, the
stored value, expiry and creation timestamps (ms since epoch) and a hit
counter.  The `size` field (`Buffer.byteLength` of the serialized value) is
reporting-only and not modelled. -/
structure CacheEntry (α : Type) where
  key : String
  value : α
  expiresAt : Int
  createdAt : Int
  hits : Nat
deriving DecidableEq, Repr

/-- The mutable state of a `CacheService` instance: the entry map (insertion
ordered), the capacity bound and the default TTL in seconds. -/
structure CacheState (α : Type) where
  cache : List (String × CacheEntry α)
  maxSize : Nat
  defaultTTL : Nat
deriving DecidableEq, Repr

namespace Persist

/-! ## Persistent-variant `CacheService` (the canonical variant)

The `generateKey` digest (SHA-256 of the input) is modelled as an explicit
function argument `gk`; nothing below depends on its concrete definition.
Disk persistence (`saveToDisk`/`loadFromDisk`) only mirrors the in-memory map
and is not modelled. -/

/-- The eviction score of an entry at time `now`:
`entry.hits / ((Date.now() - entry.createdAt.getTime()) / 1000)`, with the
JavaScript special values produced by a zero age made explicit. -/
def jsScore {α : Type} (now : Int) (e : CacheEntry α) : JSNum :=
  if e.createdAt = now then (if e.hits = 0 then .nan else .inf)
  else .fin ((e.hits : Rat) / (((now - e.createdAt : Int) : Rat) / 1000))

/-- The eviction score as the exact rational it denotes whenever the age is
nonzero (so the JavaScript division is finite). -/
def scoreQ {α : Type} (now : Int) (e : CacheEntry α) : Rat :=
  (e.hits : Rat) / (((now - e.createdAt : Int) : Rat) / 1000)

/-- One step of the `evictLRU` scan: skip expired entries, otherwise keep the
candidate whose score is strictly smaller than the best so far (`lruKey`,
`lruHits`), initial best being `(null, Infinity)`. -/
def evictStep {α : Type} (now : Int) (acc : Option String × JSNum)
    (p : String × CacheEntry α) : Option String × JSNum :=
  if now > p.2.expiresAt then acc
  else if jsLt (jsScore now p.2) acc.2 then (some p.1, jsScore now p.2) else acc

/-- The key selected by the `evictLRU` scan (`lruKey` at loop exit). -/
def evictedKey {α : Type} (now : Int) (s : CacheState α) : Option String :=
  (s.cache.foldl (evictStep now) (none, JSNum.inf)).1

/-- `CacheService.evictLRU`: scan all entries, skipping expired ones, find the
one with the lowest `hits / ageInSeconds` score, and delete it if one was
found. -/
def evictLRU {α : Type} (now : Int) (s : CacheState α) : CacheState α :=
  match evictedKey now s with
  | some k => { s with cache := mapDelete s.cache k }
  | none => s

/-- `CacheService.get`: normalize the key, return `null` if absent; if
`new Date() > entry.expiresAt` delete the entry and return `null`; otherwise
increment `hits` and return the value.  The result pairs the returned value
with the post-state. -/
def CacheService.get {α : Type} (gk : String → String) (now : Int)
    (key : String) (s : CacheState α) : Option α × CacheState α :=
  let normalizedKey := gk key
  match mapGet s.cache normalizedKey with
  | none => (none, s)
  | some entry =>
      if now > entry.expiresAt then
        (none, { s with cache := mapDelete s.cache normalizedKey })
      else
        let bumped := { entry with hits := entry.hits + 1 }
        (some entry.value, { s with cache := mapSet s.cache normalizedKey bumped })

/-- `CacheService.set`: normalize the key, compute
`expiresAt = Date.now() + (ttl || this.defaultTTL) * 1000`, evict one entry
via `evictLRU` whenever `this.cache.size >= this.maxSize` (note: with no check
that the key is already present), then store the fresh entry. -/
def CacheService.set {α : Type} (gk : String → String) (now : Int)
    (key : String) (value : α) (ttl : Option Nat) (s : CacheState α) :
    CacheState α :=
  let normalizedKey := gk key
  let expiresAt : Int := now + (jsOrNat ttl s.defaultTTL : Nat) * 1000
  let s1 := if s.maxSize ≤ s.cache.length then evictLRU now s else s
  let entry : CacheEntry α :=
    { key := normalizedKey, value := value, expiresAt := expiresAt,
      createdAt := now, hits := 0 }
  { s1 with cache := mapSet s1.cache normalizedKey entry }

end Persist

namespace Simple

/-! ## Simple in-memory `CacheService` (`src/services/cache.ts`)

Same data model; `generateKey` is the weak 32-bit string hash, again modelled
as an explicit function argument. -/

/-- Simple-variant `CacheService.set`: evict the first key in insertion order
only when at capacity AND the key is not already present
(`this.cache.size >= this.maxSize && !this.cache.has(cacheKey)`), then store
the fresh entry with `expiresAt = Date.now() + ttlSeconds * 1000` where
`ttlSeconds = ttl || this.defaultTTL`. -/
def CacheService.set {α : Type} (gk : String → String) (now : Int)
    (key : String) (value : α) (ttl : Option Nat) (s : CacheState α) :
    CacheState α :=
  let cacheKey := gk key
  let ttlSeconds := jsOrNat ttl s.defaultTTL
  let s1 :=
    if s.maxSize ≤ s.cache.length ∧ (mapGet s.cache cacheKey).isNone = true then
      match s.cache with
      | [] => s
      | (firstKey, _) :: _ => { s with cache := mapDelete s.cache firstKey }
    else s
  let entry : CacheEntry α :=
    { key := cacheKey, value := value,
      expiresAt := now + (ttlSeconds : Nat) * 1000,
      createdAt := now, hits := 0 }
  { s1 with cache := mapSet s1.cache cacheKey entry }

/-- Simple-variant `CacheService.get`: absent gives `null`; an entry with
`entry.expiresAt < new Date()` is deleted and reported absent; otherwise
`hits` is incremented and the value returned. -/
def CacheService.get {α : Type} (gk : String → String) (now : Int)
    (key : String) (s : CacheState α) : Option α × CacheState α :=
  let cacheKey := gk key
  match mapGet s.cache cacheKey with
  | none => (none, s)
  | some entry =>
      if entry.expiresAt < now then
        (none, { s with cache := mapDelete s.cache cacheKey })
      else
        let bumped := { entry with hits := entry.hits + 1 }
        (some entry.value, { s with cache := mapSet s.cache cacheKey bumped })

end Simple

/-! ## `QueueService.addWithRetry` (p-queue variant)

`addWithRetry` calls `this.add` exactly once, passing the whole retry loop as
the queued task, so the retry sequence occupies a single queue slot.  The
behaviour of one attempt is an oracle `task : Nat → Except E T` giving the
outcome of the `attempt`-th invocation of the wrapped task.  The trace records
the resolved value (or the final `lastError`), the attempts at which `onRetry`
was invoked, and the `setTimeout` backoff delays awaited between attempts. -/

/-- Observable trace of one queue-slot occupancy of the retry loop. -/
structure RetryTrace (E T : Type) where
  result : Except (Option E) T
  onRetryCalls : List Nat
  delays : List Nat
deriving Repr

/-- The body of the `for (let attempt = 1; attempt <= retries; attempt++)`
loop of `addWithRetry`: try the task; on success return its value; on failure
record `lastError` and, when `attempt < retries`, invoke `onRetry(attempt, e)`
and await `retryDelay * Math.pow(2, attempt - 1)` milliseconds; after the loop
`throw lastError`. -/
def retryLoopFrom {E T : Type} (task : Nat → Except E T)
    (retries retryDelay attempt : Nat) (lastError : Option E)
    (calls delays : List Nat) : RetryTrace E T :=
  if retries < attempt then ⟨.error lastError, calls, delays⟩
  else
    match task attempt with
    | .ok v => ⟨.ok v, calls, delays⟩
    | .error e =>
        if attempt < retries then
          retryLoopFrom task retries retryDelay (attempt + 1) (some e)
            (calls ++ [attempt]) (delays ++ [retryDelay * 2 ^ (attempt - 1)])
        else
          retryLoopFrom task retries retryDelay (attempt + 1) (some e) calls delays
termination_by retries + 1 - attempt
decreasing_by
  all_goals omega

/-- The whole retry loop, started at `attempt = 1` with `lastError = null`. -/
def retryLoop {E T : Type} (task : Nat → Except E T)
    (retries retryDelay : Nat) : RetryTrace E T :=
  retryLoopFrom task retries retryDelay 1 none [] []

/-- `QueueService.addWithRetry`: the list of queue-slot occupancies it
creates.  The source wraps the entire loop in a single `this.add(...)` call,
so the list is a singleton: the loop never re-acquires a slot per attempt. -/
def addWithRetry {E T : Type} (task : Nat → Except E T)
    (retries retryDelay : Nat) : List (RetryTrace E T) :=
  [retryLoop task retries retryDelay]

/-! ## Simple rate limiter `QueueService` (the variant without p-queue)

A labelled transition system over the service state.  `startLog` is a ghost
history of every `trackRequest` timestamp (`Date.now()` recorded at the moment
a task transitions to running); it is never pruned, unlike
`requestsInWindow`. -/

/-- State of the simple rate limiter: pending queue length, number of active
tasks, the `requestsInWindow` timestamp list, the current time and the ghost
log of all start times. -/
structure RLState where
  pendingTasks : Nat
  activeTasks : Nat
  requestsInWindow : List Int
  now : Int
  startLog : List Int
deriving DecidableEq, Repr

/-- `cleanOldRequests`: keep only timestamps strictly newer than
`Date.now() - 60000`. -/
def cleanOldRequests (now : Int) (w : List Int) : List Int :=
  w.filter (fun time => now - 60000 < time)

/-- Steps of the rate limiter, parametrized by the concurrency limit and
`rateLimitPerMinute`.  A task may start only when `canProcessNext` holds:
`activeTasks < concurrency` and, after pruning, fewer than `rate` timestamps
remain in the window; starting prunes the window (the `cleanOldRequests` call
inside `canProcessNext` reassigns `requestsInWindow`) and then pushes the
current time (`trackRequest`). -/
inductive RLStep (concurrency rate : Nat) : RLState → RLState → Prop where
  | add (s : RLState) :
      RLStep concurrency rate s { s with pendingTasks := s.pendingTasks + 1 }
  | tick (s : RLState) (d : Nat) :
      RLStep concurrency rate s { s with now := s.now + (d : Int) }
  | clean (s : RLState) :
      RLStep concurrency rate s
        { s with requestsInWindow := cleanOldRequests s.now s.requestsInWindow }
  | start (s : RLState) (hp : 0 < s.pendingTasks)
      (hc : s.activeTasks < concurrency)
      (hr : (cleanOldRequests s.now s.requestsInWindow).length < rate) :
      RLStep concurrency rate s
        { pendingTasks := s.pendingTasks - 1,
          activeTasks := s.activeTasks + 1,
          requestsInWindow := cleanOldRequests s.now s.requestsInWindow ++ [s.now],
          now := s.now,
          startLog := s.startLog ++ [s.now] }
  | finish (s : RLState) (ha : 0 < s.activeTasks) :
      RLStep concurrency rate s { s with activeTasks := s.activeTasks - 1 }

/-- The freshly constructed service at time `t0`: empty queue, no active
tasks, empty rate window. -/
def RLState.initial (t0 : Int) : RLState :=
  { pendingTasks := 0, activeTasks := 0, requestsInWindow := [], now := t0,
    startLog := [] }

/-- Reachability of rate limiter states from the freshly constructed
service. -/
def RLReachable (concurrency rate : Nat) (t0 : Int) (s : RLState) : Prop :=
  Relation.ReflTransGen (RLStep concurrency rate) (RLState.initial t0) s

/-! ## `QBOApiClient` response interceptor and the generic retry layer -/

/-- The value carried by a `RateLimitError`:
`retryAfter ? parseInt(retryAfter) : undefined`.  `undef` covers both a
missing header and an empty-string header (falsy in JavaScript); `nan` is
`parseInt` of a string with no leading digits. -/
inductive RetryAfterVal where
  | undef : RetryAfterVal
  | nan : RetryAfterVal
  | num : Nat → RetryAfterVal
deriving DecidableEq, Repr

/-- The error kinds the client surfaces to callers: `AuthenticationError`,
`RateLimitError` (with its retry-after hint), `NetworkError`, and `QBOError`
with its error code and HTTP status (covering the validation / forbidden /
not-found / unknown cases). -/
inductive ClientError where
  | authenticationError : ClientError
  | rateLimitError : RetryAfterVal → ClientError
  | networkError : ClientError
  | qboError : String → Option Nat → ClientError
deriving DecidableEq, Repr

/-- JavaScript `parseInt` restricted to the shapes a `Retry-After` header
takes: the number denoted by the leading decimal digits, or `NaN` (`none`)
when the string does not start with a digit.  (Leading whitespace and sign are
not modelled; a `Retry-After` value is a plain digit string.) -/
def jsParseInt (s : String) : Option Nat :=
  let ds := s.data.takeWhile Char.isDigit
  if ds.isEmpty then none
  else some (ds.foldl (fun n c => n * 10 + (c.toNat - 48)) 0)

/-- The interceptor's handling of the `Retry-After` header on a 429 response:
`retryAfter ? parseInt(retryAfter) : undefined`. -/
def parseRetryAfter (h : Option String) : RetryAfterVal :=
  match h with
  | none => .undef
  | some s =>
      if s = "" then .undef
      else
        match jsParseInt s with
        | none => .nan
        | some n => .num n

/-- What the error branch of the response interceptor does with an HTTP error
status: either refresh the token and re-issue the original request (401 with
the per-request `retry` flag not yet set), or throw a classified error. -/
inductive ErrAction where
  | refreshAndRetry : ErrAction
  | throwErr : ClientError → ErrAction
deriving DecidableEq, Repr

/-- The `switch (status)` of the response interceptor.  `retryFlag` is the
`(error.config as any).retry` marker; `retryAfter` the `retry-after` response
header. -/
def handleResponseError (retryFlag : Bool) (status : Nat)
    (retryAfter : Option String) : ErrAction :=
  if status = 401 then
    if retryFlag = false then .refreshAndRetry
    else .throwErr .authenticationError
  else if status = 429 then
    .throwErr (.rateLimitError (parseRetryAfter retryAfter))
  else if status = 400 then .throwErr (.qboError "VALIDATION_ERROR" (some 400))
  else if status = 403 then .throwErr (.qboError "FORBIDDEN" (some 403))
  else if status = 404 then .throwErr (.qboError "NOT_FOUND" (some 404))
  else if status = 500 ∨ status = 502 ∨ status = 503 ∨ status = 504 then
    .throwErr .networkError
  else .throwErr (.qboError "UNKNOWN_ERROR" (some status))

/-- The `retryCondition` installed by `axiosRetry`:
`isNetworkOrIdempotentRequestError(error) || status >= 500`.
`isNetworkOrIdempotentRequestError` holds for a network-level error, or for an
idempotent-method request whose response status is in the 5xx range. -/
def axiosRetryCondition (isNetworkError idempotentMethod : Bool)
    (status : Option Nat) : Bool :=
  (isNetworkError ||
    (idempotentMethod &&
      (match status with
       | some st => decide (500 ≤ st ∧ st ≤ 599)
       | none => true))) ||
  (match status with
   | some st => decide (500 ≤ st)
   | none => false)

/-- One HTTP exchange as seen by the response interceptor: `none` is a
successful (2xx) response, `some (status, retryAfter)` an error response with
its status and `retry-after` header. -/
def HttpOutcome : Type := Option (Nat × Option String)

/-- The life of one logical request through the response interceptor.
`responses` is the oracle of successive HTTP outcomes for this request (the
original dispatch, then each re-dispatch), `refreshOk` whether
`refreshAccessToken` succeeds, and `retryFlag` the `config.retry` marker.
Returns the caller-visible result, the number of `refreshAccessToken` calls,
and the number of HTTP dispatches of the request. -/
def runRequest (refreshOk : Bool) :
    List HttpOutcome → Bool → Except ClientError Unit × Nat × Nat
  | [], _ => (.ok (), 0, 0)
  | none :: _, _ => (.ok (), 0, 1)
  | some (status, retryAfter) :: rest, retryFlag =>
      match handleResponseError retryFlag status retryAfter with
      | .refreshAndRetry =>
          if refreshOk then
            let r := runRequest refreshOk rest true
            (r.1, r.2.1 + 1, r.2.2 + 1)
          else
            (.error .authenticationError, 1, 1)
      | .throwErr e => (.error e, 0, 1)

/-! ## Single-flight token refresh (`ensureValidToken`)

An interleaving model of two concurrent requests entering
`ensureValidToken` on a client whose token is expired (the constructor
initializes `expiresAt = new Date(0)`, forcing an initial refresh), observed
at `Date.now() = 1000000`.  Atomic blocks are delimited by the `await`
suspension points of the source: a caller runs the expiry check and (when no
refresh is in flight) synchronously creates the refresh promise, then
suspends awaiting it; once the refresh has settled, the caller resumes,
clears `tokenRefreshPromise`, and proceeds to read `this.tokens.accessToken`
for its `Authorization` header. -/

/-- Where a caller is inside `ensureValidToken`: not yet entered, suspended on
`await this.tokenRefreshPromise`, or finished having observed a token id. -/
inductive CallerPC where
  | idle : CallerPC
  | waitingRefresh : CallerPC
  | done : Nat → CallerPC
deriving DecidableEq, Repr

/-- Joint state of the client and the two callers.  `refreshPromise` models
whether `this.tokenRefreshPromise` is set; `promiseSettled` whether the
in-flight refresh has completed; `refreshInFlight` the number of
currently-executing token-endpoint calls; `refreshCalls` the total number of
token-endpoint calls ever made. -/
structure SFState where
  accessToken : Nat
  tokenExpiresAt : Int
  refreshPromise : Bool
  promiseSettled : Bool
  refreshInFlight : Nat
  refreshCalls : Nat
  pcA : CallerPC
  pcB : CallerPC
deriving DecidableEq, Repr

/-- The fixed observation time of the scenario. -/
def sfNow : Int := 1000000

/-- The token id delivered by the (single) successful refresh. -/
def sfFreshToken : Nat := 1

/-- The expiry check of `ensureValidToken`:
`now >= new Date(expiresAt - 60000)` (the 60-second buffer). -/
def needsRefresh (expiresAt : Int) : Bool := sfNow ≥ expiresAt - 60000

/-- A caller enters `ensureValidToken` (atomic up to the first `await`): if
the token is still valid it finishes immediately with the current token;
otherwise it joins the in-flight refresh, creating one (a token-endpoint
call) only when `tokenRefreshPromise` is unset. -/
def sfEnter (pc : CallerPC) (s : SFState) : Option (CallerPC × SFState) :=
  match pc with
  | .idle =>
      if needsRefresh s.tokenExpiresAt then
        if s.refreshPromise then some (.waitingRefresh, s)
        else
          some (.waitingRefresh,
            { s with refreshPromise := true, promiseSettled := false,
                     refreshInFlight := s.refreshInFlight + 1,
                     refreshCalls := s.refreshCalls + 1 })
      else some (.done s.accessToken, s)
  | _ => none

/-- The in-flight refresh completes: the token-endpoint response arrives,
`this.tokens` is replaced (new access token, `expiresAt = now + expires_in`),
and the promise settles. -/
def sfComplete (s : SFState) : Option SFState :=
  match s.refreshInFlight with
  | 0 => none
  | n + 1 =>
      some { s with accessToken := sfFreshToken,
                    tokenExpiresAt := sfNow + 3600000,
                    refreshInFlight := n,
                    promiseSettled := true }

/-- A caller suspended on `await this.tokenRefreshPromise` resumes once the
promise has settled: it clears `tokenRefreshPromise` and returns, after which
the request interceptor reads `this.tokens.accessToken`. -/
def sfResume (pc : CallerPC) (s : SFState) : Option (CallerPC × SFState) :=
  match pc with
  | .waitingRefresh =>
      if s.promiseSettled then
        some (.done s.accessToken, { s with refreshPromise := false })
      else none
  | _ => none

/-- All successor states: either caller entering, the refresh completing, or
either caller resuming. -/
def sfNext (s : SFState) : List SFState :=
  ((sfEnter s.pcA s).map (fun r => { r.2 with pcA := r.1 })).toList ++
  ((sfEnter s.pcB s).map (fun r => { r.2 with pcB := r.1 })).toList ++
  (sfComplete s).toList ++
  ((sfResume s.pcA s).map (fun r => { r.2 with pcA := r.1 })).toList ++
  ((sfResume s.pcB s).map (fun r => { r.2 with pcB := r.1 })).toList

/-- The initial state: the constructor sets `expiresAt = new Date(0)` to force
an initial refresh; no refresh is in flight; neither caller has entered. -/
def sfInit : SFState :=
  { accessToken := 0, tokenExpiresAt := 0, refreshPromise := false,
    promiseSettled := false, refreshInFlight := 0, refreshCalls := 0,
    pcA := .idle, pcB := .idle }

/-- Reachability under arbitrary interleaving of the two callers and the
refresh completion. -/
def SFReachable (s : SFState) : Prop :=
  Relation.ReflTransGen (fun a b => b ∈ sfNext a) sfInit s

/-! ## Failed refresh and the sticky `tokenRefreshPromise` (sequential) -/

/-- The settled state of the stored promise: `some true` resolved,
`some false` rejected, `none` when `tokenRefreshPromise` is unset. -/
structure TokenClientState where
  accessToken : Nat
  tokenExpiresAt : Int
  refreshPromise : Option Bool
  refreshCalls : Nat
deriving DecidableEq, Repr

/-- Sequential execution of one `ensureValidToken` call at time `now`.
`refreshSucceeds` tells whether a newly started `refreshAccessToken` call
succeeds (delivering `newToken`, valid for `expiresIn` ms).  Returns `true`
for normal return and `false` when an `AuthenticationError` propagates.
Faithful detail: `this.tokenRefreshPromise = undefined` is executed only
after `await this.tokenRefreshPromise` returns normally — when the promise
rejects, the field is left holding the rejected promise. -/
def ensureValidToken (refreshSucceeds : Bool) (newToken : Nat)
    (expiresIn : Int) (now : Int) (s : TokenClientState) :
    Bool × TokenClientState :=
  if now ≥ s.tokenExpiresAt - 60000 then
    match s.refreshPromise with
    | some true => (true, { s with refreshPromise := none })
    | some false => (false, s)
    | none =>
        let s1 := { s with refreshCalls := s.refreshCalls + 1 }
        if refreshSucceeds then
          (true, { s1 with accessToken := newToken,
                           tokenExpiresAt := now + expiresIn,
                           refreshPromise := none })
        else
          (false, { s1 with refreshPromise := some false })
  else (true, s)

/-- The number of recorded task-start timestamps lying in the trailing
60-second window ending at `t`. -/
def startsInWindow (t : Int) (log : List Int) : Nat :=
  (log.filter (fun x => decide (t - 60000 < x ∧ x ≤ t))).length

/-- The full reachable state space of the two-caller single-flight scenario
(computed as the closure of `sfInit` under `sfNext`; closure is proved
below). -/
def allSFStates : List SFState :=
  [⟨0, 0, false, false, 0, 0, .idle, .idle⟩,
   ⟨0, 0, true, false, 1, 1, .waitingRefresh, .idle⟩,
   ⟨0, 0, true, false, 1, 1, .idle, .waitingRefresh⟩,
   ⟨0, 0, true, false, 1, 1, .waitingRefresh, .waitingRefresh⟩,
   ⟨1, 4600000, true, true, 0, 1, .waitingRefresh, .idle⟩,
   ⟨1, 4600000, true, true, 0, 1, .idle, .waitingRefresh⟩,
   ⟨1, 4600000, true, true, 0, 1, .waitingRefresh, .waitingRefresh⟩,
   ⟨1, 4600000, true, true, 0, 1, .waitingRefresh, .done 1⟩,
   ⟨1, 4600000, false, true, 0, 1, .done 1, .idle⟩,
   ⟨1, 4600000, true, true, 0, 1, .done 1, .waitingRefresh⟩,
   ⟨1, 4600000, false, true, 0, 1, .idle, .done 1⟩,
   ⟨1, 4600000, false, true, 0, 1, .done 1, .waitingRefresh⟩,
   ⟨1, 4600000, false, true, 0, 1, .waitingRefresh, .done 1⟩,
   ⟨1, 4600000, false, true, 0, 1, .done 1, .done 1⟩]

/-- Invariant of the rate limiter: every ghost-log timestamp still inside the
trailing window survives (as a sublist) in `requestsInWindow`, and no trailing
60-second window ever contains more than `rate` recorded starts. -/
def RLInv (rate : Nat) (s : RLState) : Prop :=
  List.Sublist (s.startLog.filter (fun x => decide (s.now - 60000 < x)))
    s.requestsInWindow ∧
  ∀ t : Int, startsInWindow t s.startLog ≤ rate

/-- Decidable check: whenever both callers have finished, exactly one
token-endpoint call was made and both observed the fresh token. -/
def bothDoneSameTok (s : SFState) : Bool :=
  match s.pcA, s.pcB with
  | .done a, .done b =>
      s.refreshCalls == 1 && a == b && a == sfFreshToken
  | _, _ => true

/-! ## The 401-interceptor refresh path

The 401 branch of the response interceptor runs
`(error.config as any).retry = true; await this.refreshAccessToken();` —
it calls `refreshAccessToken` directly, never consulting or setting
`this.tokenRefreshPromise`, so it is outside the single-flight guard of
`ensureValidToken`.  This models two outstanding requests (each with its own
`config`, so each with its own unset `retry` marker) whose responses both
come back 401 — e.g. a token revoked server-side while the client still
believes it valid. -/

/-- Where one outstanding request is in the 401 scenario: awaiting its HTTP
response, inside its interceptor's direct `refreshAccessToken()` call, or
re-dispatched after that refresh returned. -/
inductive ReqPC where
  | awaitingResponse : ReqPC
  | refreshing : ReqPC
  | retried : ReqPC
deriving DecidableEq, Repr

/-- Joint state of the two outstanding requests: the number of
currently-executing token-endpoint calls, the total number ever made, and
each request's position. -/
structure Intercept401State where
  refreshInFlight : Nat
  refreshCalls : Nat
  reqA : ReqPC
  reqB : ReqPC
deriving DecidableEq, Repr

/-- A 401 response arrives for a request whose `retry` marker is unset: the
interceptor sets the marker and calls `refreshAccessToken()` directly (the
call synchronously initiates the token-endpoint request before suspending),
without checking `tokenRefreshPromise`. -/
def recv401 (pc : ReqPC) (s : Intercept401State) :
    Option (ReqPC × Intercept401State) :=
  match pc with
  | .awaitingResponse =>
      some (.refreshing,
        { s with refreshInFlight := s.refreshInFlight + 1,
                 refreshCalls := s.refreshCalls + 1 })
  | _ => none

/-- The interceptor's awaited `refreshAccessToken()` returns and the original
request is re-dispatched. -/
def refresh401Done (pc : ReqPC) (s : Intercept401State) :
    Option (ReqPC × Intercept401State) :=
  match pc with
  | .refreshing =>
      some (.retried, { s with refreshInFlight := s.refreshInFlight - 1 })
  | _ => none

/-- All successor states of the 401 scenario. -/
def i401Next (s : Intercept401State) : List Intercept401State :=
  ((recv401 s.reqA s).map (fun r => { r.2 with reqA := r.1 })).toList ++
  ((recv401 s.reqB s).map (fun r => { r.2 with reqB := r.1 })).toList ++
  ((refresh401Done s.reqA s).map (fun r => { r.2 with reqA := r.1 })).toList ++
  ((refresh401Done s.reqB s).map (fun r => { r.2 with reqB := r.1 })).toList

/-- The initial state: both requests dispatched, awaiting their responses; no
refresh in flight. -/
def i401Init : Intercept401State :=
  { refreshInFlight := 0, refreshCalls := 0,
    reqA := .awaitingResponse, reqB := .awaitingResponse }

/-- Reachability under arbitrary interleaving of the two responses and the
two refresh completions. -/
def I401Reachable (s : Intercept401State) : Prop :=
  Relation.ReflTransGen (fun a b => b ∈ i401Next a) i401Init s

/-! ## Helper lemmas about the `Map` model -/

theorem beq_eq_true_of_eq {k k2 : String} (h : k = k2) : (k == k2) = true := by
  simp [h]

theorem beq_eq_false_of_ne {k k2 : String} (h : ¬ k = k2) : (k == k2) = false := by
  simp [h]

theorem mapGet_nil {ε : Type} (k : String) : mapGet ([] : List (String × ε)) k = none := rfl

theorem mapGet_cons {ε : Type} (k0 k : String) (v0 : ε) (l : List (String × ε)) :
    mapGet ((k0, v0) :: l) k = if k0 = k then some v0 else mapGet l k := by
  by_cases h : k0 = k
  · simp [mapGet, List.find?, beq_eq_true_of_eq h, h]
  · simp [mapGet, List.find?, beq_eq_false_of_ne h, h]

theorem mapSet_cons {ε : Type} (k0 k : String) (v0 v : ε) (l : List (String × ε)) :
    mapSet ((k0, v0) :: l) k v =
      if k0 = k then (k, v) :: l else (k0, v0) :: mapSet l k v := by
  by_cases h : k0 = k
  · simp [mapSet, beq_eq_true_of_eq h, h]
  · simp [mapSet, beq_eq_false_of_ne h, h]

theorem mapDelete_nil {ε : Type} (k : String) :
    mapDelete ([] : List (String × ε)) k = [] := rfl

theorem mapDelete_cons {ε : Type} (k0 k : String) (v0 : ε) (l : List (String × ε)) :
    mapDelete ((k0, v0) :: l) k =
      if k0 = k then l else (k0, v0) :: mapDelete l k := by
  by_cases h : k0 = k
  · simp [mapDelete, List.eraseP_cons, beq_eq_true_of_eq h, h]
  · simp [mapDelete, List.eraseP_cons, beq_eq_false_of_ne h, h]

theorem mapGet_mapSet_self {ε : Type} (l : List (String × ε)) (k : String)
    (v : ε) : mapGet (mapSet l k v) k = some v := by
  induction l with
  | nil => simp [mapGet, mapSet]
  | cons p rest ih =>
      obtain ⟨k0, v0⟩ := p
      rw [mapSet_cons]
      by_cases h : k0 = k
      · simp [h, mapGet_cons]
      · simp [h, mapGet_cons, ih]

theorem mapGet_mapSet_ne {ε : Type} (l : List (String × ε)) (k k2 : String)
    (v : ε) (h : k2 ≠ k) : mapGet (mapSet l k v) k2 = mapGet l k2 := by
  induction l with
  | nil => simp [mapGet, mapSet, List.find?, beq_eq_false_of_ne (Ne.symm h)]
  | cons p rest ih =>
      obtain ⟨k0, v0⟩ := p
      rw [mapSet_cons]
      by_cases h0 : k0 = k
      · subst h0
        rw [if_pos rfl, mapGet_cons, mapGet_cons, if_neg (Ne.symm h),
          if_neg (Ne.symm h)]
      · simp [mapGet_cons, h0, ih]

theorem keys_mapSet {ε : Type} (l : List (String × ε)) (k : String) (v : ε) :
    (mapSet l k v).map Prod.fst =
      if (mapGet l k).isSome then l.map Prod.fst
      else l.map Prod.fst ++ [k] := by
  induction l with
  | nil => simp [mapGet, mapSet]
  | cons p rest ih =>
      obtain ⟨k0, v0⟩ := p
      rw [mapSet_cons, mapGet_cons]
      by_cases h0 : k0 = k
      · simp [h0]
      · simp only [if_neg h0, List.map_cons, ih]
        by_cases hs : (mapGet rest k).isSome
        · simp [hs]
        · simp [hs]

theorem mem_keys_of_mapGet_isSome {ε : Type} (l : List (String × ε))
    (k : String) (h : (mapGet l k).isSome) : k ∈ l.map Prod.fst := by
  induction l with
  | nil => simp [mapGet] at h
  | cons p rest ih =>
      obtain ⟨k0, v0⟩ := p
      rw [mapGet_cons] at h
      by_cases h0 : k0 = k
      · simp [h0]
      · simp only [if_neg h0] at h
        simp [ih h]

theorem mapGet_isSome_of_mem_keys {ε : Type} (l : List (String × ε))
    (k : String) (h : k ∈ l.map Prod.fst) : (mapGet l k).isSome := by
  induction l with
  | nil => simp at h
  | cons p rest ih =>
      obtain ⟨k0, v0⟩ := p
      rw [mapGet_cons]
      by_cases h0 : k0 = k
      · simp [h0]
      · simp only [List.map_cons, List.mem_cons] at h
        rcases h with h | h
        · exact absurd h.symm h0
        · simp only [if_neg h0]
          exact ih h

theorem nodup_keys_mapSet {ε : Type} (l : List (String × ε)) (k : String)
    (v : ε) (h : (l.map Prod.fst).Nodup) :
    ((mapSet l k v).map Prod.fst).Nodup := by
  rw [keys_mapSet]
  by_cases hs : (mapGet l k).isSome
  · simpa [hs] using h
  · have hk : k ∉ l.map Prod.fst := fun hm => hs (mapGet_isSome_of_mem_keys l k hm)
    simp only [hs, if_false, Bool.false_eq_true]
    simp [List.nodup_append, h, hk]

theorem mapDelete_sublist {ε : Type} (l : List (String × ε)) (k : String) :
    List.Sublist (mapDelete l k) l :=
  List.eraseP_sublist l

theorem nodup_keys_mapDelete {ε : Type} (l : List (String × ε)) (k : String)
    (h : (l.map Prod.fst).Nodup) :
    ((mapDelete l k).map Prod.fst).Nodup :=
  List.Nodup.sublist ((mapDelete_sublist l k).map Prod.fst) h

theorem mapGet_mapDelete_self {ε : Type} (l : List (String × ε)) (k : String)
    (h : (l.map Prod.fst).Nodup) : mapGet (mapDelete l k) k = none := by
  induction l with
  | nil => simp [mapGet, mapDelete]
  | cons p rest ih =>
      obtain ⟨k0, v0⟩ := p
      simp only [List.map_cons, List.nodup_cons] at h
      rw [mapDelete_cons]
      by_cases h0 : k0 = k
      · subst h0
        rw [if_pos rfl]
        rcases ho : mapGet rest k0 with _ | e
        · rfl
        · exact absurd (mem_keys_of_mapGet_isSome rest k0 (by simp [ho])) h.1
      · rw [if_neg h0, mapGet_cons, if_neg h0]
        exact ih h.2

theorem length_mapDelete_of_mem {ε : Type} (l : List (String × ε))
    (k : String) (h : (mapGet l k).isSome) :
    (mapDelete l k).length + 1 = l.length := by
  induction l with
  | nil => simp [mapGet] at h
  | cons p rest ih =>
      obtain ⟨k0, v0⟩ := p
      rw [mapGet_cons] at h
      rw [mapDelete_cons]
      by_cases h0 : k0 = k
      · simp [h0]
      · simp only [if_neg h0] at h ⊢
        simp [ih h]

/-! ## Facts about the persistent cache operations -/

theorem jsOrNat_some_pos (t d : Nat) (h : 0 < t) : jsOrNat (some t) d = t := by
  simp [jsOrNat, Nat.pos_iff_ne_zero.mp h]

theorem evictLRU_nodup {α : Type} (now : Int) (s : CacheState α)
    (h : (s.cache.map Prod.fst).Nodup) :
    ((Persist.evictLRU now s).cache.map Prod.fst).Nodup := by
  unfold Persist.evictLRU
  rcases Persist.evictedKey now s with _ | k
  · exact h
  · exact nodup_keys_mapDelete _ _ h

theorem set_cache_eq {α : Type} (gk : String → String) (now : Int)
    (key : String) (value : α) (ttl : Option Nat) (s : CacheState α) :
    (Persist.CacheService.set gk now key value ttl s).cache =
      mapSet (if s.maxSize ≤ s.cache.length then Persist.evictLRU now s
              else s).cache (gk key)
        { key := gk key, value := value,
          expiresAt := now + (jsOrNat ttl s.defaultTTL : Nat) * 1000,
          createdAt := now, hits := 0 } := by
  unfold Persist.CacheService.set
  by_cases h : s.maxSize ≤ s.cache.length <;> simp [h]

theorem set_cache_nodup {α : Type} (gk : String → String) (now : Int)
    (key : String) (value : α) (ttl : Option Nat) (s : CacheState α)
    (h : (s.cache.map Prod.fst).Nodup) :
    ((Persist.CacheService.set gk now key value ttl s).cache.map
        Prod.fst).Nodup := by
  rw [set_cache_eq]
  apply nodup_keys_mapSet
  by_cases hc : s.maxSize ≤ s.cache.length
  · simpa [hc] using evictLRU_nodup now s h
  · simpa [hc] using h

theorem mapGet_set_self {α : Type} (gk : String → String) (now : Int)
    (key : String) (value : α) (ttl : Option Nat) (s : CacheState α) :
    mapGet (Persist.CacheService.set gk now key value ttl s).cache (gk key) =
      some { key := gk key, value := value,
             expiresAt := now + (jsOrNat ttl s.defaultTTL : Nat) * 1000,
             createdAt := now, hits := 0 } := by
  rw [set_cache_eq]
  exact mapGet_mapSet_self _ _ _

theorem get_of_mapGet_fresh {α : Type} (gk : String → String) (now : Int)
    (key : String) (s : CacheState α) (e : CacheEntry α)
    (hm : mapGet s.cache (gk key) = some e) (hfresh : ¬ now > e.expiresAt) :
    (Persist.CacheService.get gk now key s).1 = some e.value := by
  unfold Persist.CacheService.get
  simp [hm, hfresh]

theorem get_of_mapGet_expired {α : Type} (gk : String → String) (now : Int)
    (key : String) (s : CacheState α) (e : CacheEntry α)
    (hm : mapGet s.cache (gk key) = some e) (hexp : now > e.expiresAt) :
    Persist.CacheService.get gk now key s =
      (none, { s with cache := mapDelete s.cache (gk key) }) := by
  unfold Persist.CacheService.get
  simp [hm, hexp]

/-! ## Claim theorems -/

/-- C1.  For every key, value and `ttl > 0`, `set(key, value, ttl)` followed
immediately by `get(key)` returns the value; once time advances strictly past
`expiresAt = now + ttl * 1000`, `get(key)` returns absent and the expired
entry is removed from the cache map.  (`hnd` is the well-formedness of a JS
`Map`: its keys are pairwise distinct.) -/
theorem claim_C1_cache_set_get_roundtrip {α : Type} (gk : String → String)
    (now : Int) (key : String) (value : α) (ttl : Nat) (s : CacheState α)
    (httl : 0 < ttl) (hnd : (s.cache.map Prod.fst).Nodup) :
    (Persist.CacheService.get gk now key
        (Persist.CacheService.set gk now key value (some ttl) s)).1 =
      some value ∧
    ∀ later : Int, now + (ttl : Int) * 1000 < later →
      (Persist.CacheService.get gk later key
          (Persist.CacheService.set gk now key value (some ttl) s)).1 =
        none ∧
      mapGet (Persist.CacheService.get gk later key
          (Persist.CacheService.set gk now key value (some ttl) s)).2.cache
          (gk key) = none := by
  have hget := mapGet_set_self gk now key value (some ttl) s
  rw [jsOrNat_some_pos ttl s.defaultTTL httl] at hget
  refine ⟨?_, ?_⟩
  · have hfresh : ¬ now > now + (ttl : Int) * 1000 := by
      have : (0 : Int) ≤ (ttl : Int) * 1000 := by positivity
      omega
    exact get_of_mapGet_fresh gk now key _ _ hget hfresh
  · intro later hlater
    have hexp : later > now + (ttl : Int) * 1000 := hlater
    have hres := get_of_mapGet_expired gk later key _ _ hget hexp
    constructor
    · rw [hres]
    · rw [hres]
      exact mapGet_mapDelete_self _ _
        (set_cache_nodup gk now key value (some ttl) s hnd)

/-- C1 witness: a concrete round trip (`ttl = 3` seconds, set at `t = 100` ms,
read back at `t = 100` and at `t = 103101`). -/
theorem claim_C1_cache_set_get_roundtrip_witness :
    (0 < 3 ∧
      ((⟨[], 100, 300⟩ : CacheState Nat).cache.map Prod.fst).Nodup) ∧
    (Persist.CacheService.get id 100 "inv"
        (Persist.CacheService.set id 100 "inv" (42 : Nat) (some 3)
          ⟨[], 100, 300⟩)).1 = some 42 ∧
    (Persist.CacheService.get id 103101 "inv"
        (Persist.CacheService.set id 100 "inv" (42 : Nat) (some 3)
          ⟨[], 100, 300⟩)).1 = none := by
  have h := claim_C1_cache_set_get_roundtrip id 100 "inv" (42 : Nat) 3
    (⟨[], 100, 300⟩ : CacheState Nat) (by decide) (by decide)
  exact ⟨⟨by decide, by decide⟩, h.1, (h.2 103101 (by decide)).1⟩

/-- C10.  A `ttl` argument of `0` is falsy in `ttl || this.defaultTTL`, so
`set(key, value, 0)` behaves exactly like `set(key, value)` (default TTL) in
both cache variants, and a `get(key)` at any time not strictly past
`now + defaultTTL * 1000` returns the value rather than finding an
immediately-expired entry. -/
theorem claim_C10_ttl_zero_means_default {α : Type} (gk : String → String)
    (now : Int) (key : String) (value : α) (s : CacheState α) :
    Persist.CacheService.set gk now key value (some 0) s =
      Persist.CacheService.set gk now key value none s ∧
    Simple.CacheService.set gk now key value (some 0) s =
      Simple.CacheService.set gk now key value none s ∧
    ∀ later : Int, ¬ now + (s.defaultTTL : Int) * 1000 < later →
      (Persist.CacheService.get gk later key
          (Persist.CacheService.set gk now key value (some 0) s)).1 =
        some value := by
  refine ⟨?_, ?_, ?_⟩
  · unfold Persist.CacheService.set
    simp [jsOrNat]
  · unfold Simple.CacheService.set
    simp [jsOrNat]
  · intro later hlater
    have hget := mapGet_set_self gk now key value (some 0) s
    have h0 : jsOrNat (some 0) s.defaultTTL = s.defaultTTL := by
      simp [jsOrNat]
    rw [h0] at hget
    exact get_of_mapGet_fresh gk later key _ _ hget hlater

/-- C10 witness: `set` with `ttl = 0` at `t = 5`, read back at
`t = 5 + 200000` (inside the 300 s default TTL). -/
theorem claim_C10_ttl_zero_means_default_witness :
    ¬ (5 : Int) + ((300 : Nat) : Int) * 1000 < 200005 ∧
    (Persist.CacheService.get id 200005 "k"
        (Persist.CacheService.set id 5 "k" (7 : Nat) (some 0)
          ⟨[], 100, 300⟩)).1 = some 7 := by
  have h := claim_C10_ttl_zero_means_default id 5 "k" (7 : Nat)
    (⟨[], 100, 300⟩ : CacheState Nat)
  exact ⟨by decide, h.2.2 200005 (by decide)⟩

/-- C5.  `addWithRetry` with `retries = 3` on a task that fails on attempts 1
and 2 and succeeds on attempt 3 resolves with the success value, invokes
`onRetry` exactly at attempts 1 and 2 (twice), awaits backoff delays
`retryDelay * 2^0` and `retryDelay * 2^1` (the second twice the first), and
the whole loop occupies exactly one queue slot (`this.add` is called once,
with the loop as its task). -/
theorem claim_C5_addWithRetry_two_failures {E T : Type}
    (task : Nat → Except E T) (e1 e2 : E) (v : T) (d : Nat)
    (h1 : task 1 = .error e1) (h2 : task 2 = .error e2)
    (h3 : task 3 = .ok v) :
    addWithRetry task 3 d =
      [{ result := .ok v, onRetryCalls := [1, 2],
         delays := [d * 2 ^ 0, d * 2 ^ 1] }] := by
  unfold addWithRetry retryLoop
  rw [retryLoopFrom]
  simp only [h1, show ¬(3 < 1) by decide, if_false]
  rw [retryLoopFrom]
  simp only [h2, show ¬(3 < 2) by decide, if_false]
  rw [retryLoopFrom]
  simp only [h3, show ¬(3 < 3) by decide, if_false]
  simp

/-- C5 witness: a concrete task failing twice then returning 99, with
`retryDelay = 1000`. -/
theorem claim_C5_addWithRetry_two_failures_witness :
    ((fun n => if n ≤ 2 then Except.error n else Except.ok 99 :
        Nat → Except Nat Nat) 1 = .error 1) ∧
    addWithRetry
        (fun n => if n ≤ 2 then Except.error n else Except.ok 99 :
          Nat → Except Nat Nat) 3 1000 =
      [{ result := .ok 99, onRetryCalls := [1, 2],
         delays := [1000 * 2 ^ 0, 1000 * 2 ^ 1] }] := by
  refine ⟨by norm_num, ?_⟩
  exact claim_C5_addWithRetry_two_failures _ 1 2 99 1000 (by norm_num)
    (by norm_num) (by norm_num)

/-- Once the per-request `retry` marker is set, the interceptor never asks for
another refresh or re-dispatch: the follow-up exchange makes exactly one HTTP
dispatch and zero refresh calls. -/
theorem runRequest_flagged (rok : Bool) (o : HttpOutcome)
    (rest : List HttpOutcome) :
    (runRequest rok (o :: rest) true).2.1 = 0 ∧
    (runRequest rok (o :: rest) true).2.2 = 1 := by
  rcases o with _ | ⟨st, ra⟩
  · simp [runRequest]
  · have hthrow : ∃ e, handleResponseError true st ra = .throwErr e := by
      unfold handleResponseError
      split_ifs <;> simp_all
    obtain ⟨e, he⟩ := hthrow
    simp [runRequest, he]

/-- C4.  A request whose first response is HTTP 401 (with the retry marker not
yet set) causes exactly one `refreshAccessToken` call and exactly one
re-dispatch of the original request, whatever the second response is; if the
retried request again returns 401, the caller receives an
`AuthenticationError`; and the generic `axios-retry` layer never retries a
401 response. -/
theorem claim_C4_401_refresh_once_retry_once (ra : Option String)
    (second : HttpOutcome) (rest : List HttpOutcome) :
    (runRequest true (some (401, ra) :: second :: rest) false).2.1 = 1 ∧
    (runRequest true (some (401, ra) :: second :: rest) false).2.2 = 2 ∧
    (∀ ra2, second = some (401, ra2) →
      (runRequest true (some (401, ra) :: second :: rest) false).1 =
        .error .authenticationError) ∧
    (∀ idem : Bool, axiosRetryCondition false idem (some 401) = false) := by
  have hre : handleResponseError false 401 ra = .refreshAndRetry := by
    simp [handleResponseError]
  have hflag := runRequest_flagged true second rest
  refine ⟨?_, ?_, ?_, ?_⟩
  · simp [runRequest, hre, hflag.1]
  · simp [runRequest, hre, hflag.2]
  · intro ra2 hsec
    subst hsec
    simp [runRequest, hre, handleResponseError]
  · intro idem
    cases idem <;> simp [axiosRetryCondition]

/-- C4 witness: both responses are 401 with no `Retry-After` header. -/
theorem claim_C4_401_refresh_once_retry_once_witness :
    (some (401, (none : Option String)) : HttpOutcome) =
      some (401, (none : Option String)) ∧
    (runRequest true [some (401, none), some (401, none)] false).1 =
      .error .authenticationError ∧
    (runRequest true [some (401, none), some (401, none)] false).2.1 = 1 := by
  have h := claim_C4_401_refresh_once_retry_once none
    (some (401, none)) []
  exact ⟨rfl, h.2.2.1 none rfl, h.1⟩

/-- C8.  A 429 response is surfaced as a `RateLimitError` carrying the parsed
`Retry-After` header (when present), with no token refresh and no re-dispatch
by the interceptor; a digit-string header parses to its numeric value; and the
generic `axios-retry` layer's retry condition rejects a 429 response. -/
theorem claim_C8_429_rate_limit_error (hdr : Option String) (flag rok : Bool)
    (rest : List HttpOutcome) :
    runRequest rok (some (429, hdr) :: rest) flag =
      (.error (.rateLimitError (parseRetryAfter hdr)), 0, 1) ∧
    (∀ s n, jsParseInt s = some n → s ≠ "" →
      parseRetryAfter (some s) = .num n) ∧
    (∀ idem : Bool, axiosRetryCondition false idem (some 429) = false) := by
  have h429 : handleResponseError flag 429 hdr =
      .throwErr (.rateLimitError (parseRetryAfter hdr)) := by
    cases flag <;> simp [handleResponseError]
  refine ⟨by simp [runRequest, h429], ?_, ?_⟩
  · intro s n hp hne
    simp [parseRetryAfter, hne, hp]
  · intro idem
    cases idem <;> simp [axiosRetryCondition]

/-- C8 witness: a 429 response carrying `Retry-After: 30`. -/
theorem claim_C8_429_rate_limit_error_witness :
    jsParseInt "30" = some 30 ∧
    runRequest true [some (429, some "30")] false =
      (.error (.rateLimitError (.num 30)), 0, 1) := by
  have h := claim_C8_429_rate_limit_error (some "30") false true []
  have hp : jsParseInt "30" = some 30 := by decide
  have hv : parseRetryAfter (some "30") = .num 30 :=
    h.2.1 "30" 30 hp (by decide)
  exact ⟨hp, by rw [h.1, hv]⟩

/-- C9.  When the refresh started by `ensureValidToken` fails, the call throws
before the `this.tokenRefreshPromise = undefined` line runs, so the rejected
promise stays stored; every subsequent call (at any `later` time, the stored
expiry still being the stale one) awaits that same rejected promise, fails the
same way, and leaves the state — in particular the count of token-endpoint
calls — completely unchanged. -/
theorem claim_C9_failed_refresh_is_sticky (newTok : Nat)
    (expIn now : Int) (s : TokenClientState)
    (hp : s.refreshPromise = none)
    (hexp : now ≥ s.tokenExpiresAt - 60000) :
    (ensureValidToken false newTok expIn now s).1 = false ∧
    (ensureValidToken false newTok expIn now s).2.refreshPromise =
      some false ∧
    (ensureValidToken false newTok expIn now s).2.refreshCalls =
      s.refreshCalls + 1 ∧
    (ensureValidToken false newTok expIn now s).2.tokenExpiresAt =
      s.tokenExpiresAt ∧
    ∀ (b : Bool) (nt : Nat) (ei later : Int),
      s.tokenExpiresAt - 60000 ≤ later →
      ensureValidToken b nt ei later
          (ensureValidToken false newTok expIn now s).2 =
        (false, (ensureValidToken false newTok expIn now s).2) := by
  have hrun : ensureValidToken false newTok expIn now s =
      (false, { s with refreshCalls := s.refreshCalls + 1,
                       refreshPromise := some false }) := by
    unfold ensureValidToken
    simp [hp, hexp]
  refine ⟨by rw [hrun], by rw [hrun], by rw [hrun], by rw [hrun], ?_⟩
  intro b nt ei later hlater
  rw [hrun]
  unfold ensureValidToken
  simp [hlater]

/-- C9 witness: the constructor state (`expiresAt = 0`, empty promise slot),
first call at `t = 1000000` with a failing refresh, second call at
`t = 2000000`. -/
theorem claim_C9_failed_refresh_is_sticky_witness :
    ((⟨0, 0, none, 0⟩ : TokenClientState).refreshPromise = none ∧
      (1000000 : Int) ≥ (0 : Int) - 60000) ∧
    (ensureValidToken false 1 3600000 1000000 ⟨0, 0, none, 0⟩).1 = false ∧
    ensureValidToken true 1 3600000 2000000
        (ensureValidToken false 1 3600000 1000000 ⟨0, 0, none, 0⟩).2 =
      (false, (ensureValidToken false 1 3600000 1000000 ⟨0, 0, none, 0⟩).2) := by
  have h := claim_C9_failed_refresh_is_sticky 1 3600000 1000000
    (⟨0, 0, none, 0⟩ : TokenClientState) rfl (by decide)
  exact ⟨⟨rfl, by decide⟩, h.1, h.2.2.2.2 true 1 3600000 2000000 (by decide)⟩

/-! ## Order lemmas for the JavaScript comparison in the eviction scan -/

theorem jsLt_irrefl (x : JSNum) : jsLt x x = false := by
  cases x with
  | nan => rfl
  | inf => rfl
  | fin q => simp [jsLt]

theorem jsLt_nan_left (x : JSNum) : jsLt .nan x = false := by
  cases x <;> rfl

theorem jsLt_inf_left (x : JSNum) : jsLt .inf x = false := by
  cases x <;> rfl

theorem jsLt_neg_trans (x a r : JSNum) (hx : jsLt x a = false)
    (hr : jsLt r a = true) : jsLt x r = false := by
  cases x with
  | nan => exact jsLt_nan_left r
  | inf => exact jsLt_inf_left r
  | fin q =>
      cases a with
      | nan => cases r <;> simp [jsLt] at hr
      | inf => simp [jsLt] at hx
      | fin qa =>
          cases r with
          | nan => rfl
          | inf => simp [jsLt] at hr
          | fin qr =>
              simp [jsLt] at hx hr ⊢
              linarith

theorem jsScore_ne_nan_of_jsLt {α : Type} (now : Int) (e : CacheEntry α)
    (a : JSNum) (h : jsLt (Persist.jsScore now e) a = true) :
    Persist.jsScore now e ≠ .nan := by
  intro hn
  rw [hn, jsLt_nan_left] at h
  exact Bool.false_ne_true h

theorem jsScore_fin {α : Type} (now : Int) (e : CacheEntry α)
    (h : e.createdAt ≠ now) :
    Persist.jsScore now e = .fin (Persist.scoreQ now e) := by
  unfold Persist.jsScore Persist.scoreQ
  simp [fun hh : e.createdAt = now => h hh]

/-! ## The `evictLRU` fold: accumulator facts -/

theorem evictStep_snd_ne_nan {α : Type} (now : Int)
    (acc : Option String × JSNum) (p : String × CacheEntry α)
    (h : acc.2 ≠ .nan) : (Persist.evictStep now acc p).2 ≠ .nan := by
  unfold Persist.evictStep
  split_ifs with h1 h2
  · exact h
  · exact jsScore_ne_nan_of_jsLt now p.2 acc.2 h2
  · exact h

theorem evictFold_snd_ne_nan {α : Type} (now : Int)
    (l : List (String × CacheEntry α)) (acc : Option String × JSNum)
    (h : acc.2 ≠ .nan) :
    (l.foldl (Persist.evictStep now) acc).2 ≠ .nan := by
  induction l generalizing acc with
  | nil => exact h
  | cons p l ih => exact ih _ (evictStep_snd_ne_nan now acc p h)

theorem evictFold_descend {α : Type} (now : Int)
    (l : List (String × CacheEntry α)) (acc : Option String × JSNum) :
    (l.foldl (Persist.evictStep now) acc).2 = acc.2 ∨
      jsLt (l.foldl (Persist.evictStep now) acc).2 acc.2 = true := by
  induction l generalizing acc with
  | nil => exact Or.inl rfl
  | cons p l ih =>
      have hstep : (Persist.evictStep now acc p).2 = acc.2 ∨
          jsLt (Persist.evictStep now acc p).2 acc.2 = true := by
        unfold Persist.evictStep
        split_ifs with h1 h2
        · exact Or.inl rfl
        · exact Or.inr h2
        · exact Or.inl rfl
      rcases ih (Persist.evictStep now acc p) with h | h
      · rw [List.foldl_cons, h]
        exact hstep
      · rcases hstep with h2 | h2
        · rw [List.foldl_cons]
          rw [h2] at h
          exact Or.inr h
        · rw [List.foldl_cons]
          right
          by_contra hc
          have hfalse : jsLt (l.foldl (Persist.evictStep now)
              (Persist.evictStep now acc p)).2 acc.2 = false :=
            Bool.eq_false_iff.mpr hc
          have := jsLt_neg_trans _ _ _ hfalse h2
          rw [this] at h
          exact Bool.false_ne_true h

theorem evictFold_upper {α : Type} (now : Int)
    (l : List (String × CacheEntry α)) (acc : Option String × JSNum)
    (hacc : acc.2 ≠ .nan) :
    ∀ p ∈ l, ¬ now > p.2.expiresAt →
      jsLt (Persist.jsScore now p.2)
        (l.foldl (Persist.evictStep now) acc).2 = false := by
  induction l generalizing acc with
  | nil => intro p hp; exact absurd hp (List.not_mem_nil p)
  | cons p0 l ih =>
      intro p hp hexp
      rw [List.foldl_cons]
      rcases List.mem_cons.mp hp with rfl | hmem
      · have hstep : Persist.evictStep now acc p =
            if jsLt (Persist.jsScore now p.2) acc.2
            then (some p.1, Persist.jsScore now p.2) else acc := by
          unfold Persist.evictStep
          rw [if_neg hexp]
        by_cases hsel : jsLt (Persist.jsScore now p.2) acc.2 = true
        · rw [hstep, if_pos hsel]
          rcases evictFold_descend now l (some p.1, Persist.jsScore now p.2)
            with h | h
          · rw [h, jsLt_irrefl]
          · exact jsLt_neg_trans _ _ _ (jsLt_irrefl _) h
        · have hsel' : jsLt (Persist.jsScore now p.2) acc.2 = false :=
            Bool.eq_false_iff.mpr hsel
          rw [hstep, if_neg (Bool.eq_false_iff.mp hsel'), ]
          rcases evictFold_descend now l acc with h | h
          · rw [h]
            exact hsel'
          · exact jsLt_neg_trans _ _ _ hsel' h
      · exact ih (Persist.evictStep now acc p0)
          (evictStep_snd_ne_nan now acc p0 hacc) p hmem hexp

theorem evictFold_provenance {α : Type} (now : Int)
    (l : List (String × CacheEntry α)) (acc : Option String × JSNum) :
    l.foldl (Persist.evictStep now) acc = acc ∨
      ∃ p ∈ l, ¬ now > p.2.expiresAt ∧
        l.foldl (Persist.evictStep now) acc =
          (some p.1, Persist.jsScore now p.2) := by
  induction l generalizing acc with
  | nil => exact Or.inl rfl
  | cons p0 l ih =>
      rw [List.foldl_cons]
      rcases ih (Persist.evictStep now acc p0) with h | h
      · rw [h]
        unfold Persist.evictStep
        split_ifs with h1 h2
        · exact Or.inl rfl
        · exact Or.inr ⟨p0, List.mem_cons_self p0 l, h1, rfl⟩
        · exact Or.inl rfl
      · obtain ⟨p, hp, hexp, heq⟩ := h
        exact Or.inr ⟨p, List.mem_cons_of_mem p0 hp, hexp, heq⟩

/-- Specification of the `evictLRU` scan whenever at least one entry is a
genuine candidate (non-expired and with nonzero age, so its score is a finite
number): the scan selects a candidate whose `hits / ageInSeconds` score is
minimal among all candidates. -/
theorem evictedKey_spec {α : Type} (now : Int) (s : CacheState α)
    (hcand : ∃ p ∈ s.cache, ¬ now > p.2.expiresAt ∧ p.2.createdAt ≠ now) :
    ∃ k e, Persist.evictedKey now s = some k ∧ (k, e) ∈ s.cache ∧
      ¬ now > e.expiresAt ∧ e.createdAt ≠ now ∧
      ∀ p ∈ s.cache, ¬ now > p.2.expiresAt → p.2.createdAt ≠ now →
        Persist.scoreQ now e ≤ Persist.scoreQ now p.2 := by
  obtain ⟨pc, hpc, hpcexp, hpcage⟩ := hcand
  have hupper := evictFold_upper now s.cache ((none, JSNum.inf))
    (by simp)
  have hup_c := hupper pc hpc hpcexp
  rw [jsScore_fin now pc.2 hpcage] at hup_c
  have hne_nan := evictFold_snd_ne_nan now s.cache ((none, JSNum.inf))
    (by simp)
  have hr2 : ∃ q, (s.cache.foldl (Persist.evictStep now)
      ((none, JSNum.inf))).2 = .fin q := by
    cases hr : (s.cache.foldl (Persist.evictStep now)
        ((none, JSNum.inf))).2 with
    | nan => exact absurd hr hne_nan
    | inf =>
        rw [hr] at hup_c
        simp [jsLt] at hup_c
    | fin q => exact ⟨q, rfl⟩
  obtain ⟨qr, hqr⟩ := hr2
  rcases evictFold_provenance now s.cache ((none, JSNum.inf)) with h | h
  · rw [h] at hqr
    simp at hqr
  · obtain ⟨psel, hpsel, hselexp, hseleq⟩ := h
    have hsel_fin : Persist.jsScore now psel.2 = .fin qr := by
      rw [← hqr, hseleq]
    have hselage : psel.2.createdAt ≠ now := by
      intro hh
      unfold Persist.jsScore at hsel_fin
      rw [if_pos hh] at hsel_fin
      by_cases hz : psel.2.hits = 0 <;> simp [hz] at hsel_fin
    have hscoreq : Persist.scoreQ now psel.2 = qr := by
      rw [jsScore_fin now psel.2 hselage] at hsel_fin
      injection hsel_fin
    refine ⟨psel.1, psel.2, ?_, ?_, hselexp, hselage, ?_⟩
    · unfold Persist.evictedKey
      rw [hseleq]
    · exact hpsel
    · intro p hp hpexp hpage
      have hb := hupper p hp hpexp
      rw [jsScore_fin now p.2 hpage, hqr] at hb
      simp [jsLt] at hb
      rw [hscoreq]
      exact hb

theorem mapGet_mapDelete_none {ε : Type} (l : List (String × ε))
    (k k2 : String) (h : mapGet l k = none) :
    mapGet (mapDelete l k2) k = none := by
  cases hg : mapGet (mapDelete l k2) k with
  | none => rfl
  | some v =>
      have hmem : k ∈ (mapDelete l k2).map Prod.fst :=
        mem_keys_of_mapGet_isSome _ _ (by simp [hg])
      have hsub : List.Sublist ((mapDelete l k2).map Prod.fst)
          (l.map Prod.fst) := (mapDelete_sublist l k2).map Prod.fst
      have : k ∈ l.map Prod.fst := hsub.subset hmem
      have := mapGet_isSome_of_mem_keys l k this
      rw [h] at this
      simp at this

theorem length_mapSet {ε : Type} (l : List (String × ε)) (k : String)
    (v : ε) :
    (mapSet l k v).length =
      if (mapGet l k).isSome then l.length else l.length + 1 := by
  have h1 : (mapSet l k v).length = ((mapSet l k v).map Prod.fst).length :=
    (List.length_map _ _).symm
  rw [h1, keys_mapSet]
  by_cases hs : (mapGet l k).isSome <;> simp [hs]

/-- C2 as stated is false.  Counterexample: `maxSize = 1`, two distinct keys
inserted in the same millisecond (`now = 0`).  At the second `set`, the only
resident entry has `hits = 0` and zero age, so its score is `0 / 0 = NaN`;
`NaN < Infinity` is `false` in JavaScript, the scan finds no candidate,
nothing is evicted, and the cache ends up holding `2 > maxSize` entries. -/
theorem claim_C2_counterexample :
    (Persist.CacheService.set id 0 "b" (2 : Nat) (some 60)
        (Persist.CacheService.set id 0 "a" (1 : Nat) (some 60)
          { cache := [], maxSize := 1, defaultTTL := 300 })).cache.length
      = 2 ∧
    (Persist.CacheService.set id 0 "b" (2 : Nat) (some 60)
        (Persist.CacheService.set id 0 "a" (1 : Nat) (some 60)
          { cache := [], maxSize := 1, defaultTTL := 300 })).maxSize = 1 := by
  constructor <;> decide

/-- C2 amended.  Inserting a fresh key into a cache within its capacity bound
leaves it within the bound — provided that, when the cache is at capacity, at
least one resident entry is a genuine eviction candidate (non-expired, with
nonzero age; entries created in the very millisecond of the eviction scan
have a `NaN`/`Infinity` score and can never be selected).  Moreover the
eviction scan then selects a non-expired candidate whose `hits/age` score is
minimal among all candidates, skipping expired entries. -/
theorem claim_C2_capacity_bound_and_eviction_minimality {α : Type}
    (gk : String → String) (now : Int) (key : String) (value : α)
    (ttl : Option Nat) (s : CacheState α)
    (hlen : s.cache.length ≤ s.maxSize)
    (hnew : mapGet s.cache (gk key) = none)
    (hcand : s.maxSize ≤ s.cache.length →
      ∃ p ∈ s.cache, ¬ now > p.2.expiresAt ∧ p.2.createdAt ≠ now) :
    (Persist.CacheService.set gk now key value ttl s).cache.length ≤
      s.maxSize ∧
    (s.maxSize ≤ s.cache.length →
      ∃ k e, Persist.evictedKey now s = some k ∧ (k, e) ∈ s.cache ∧
        ¬ now > e.expiresAt ∧
        ∀ p ∈ s.cache, ¬ now > p.2.expiresAt → p.2.createdAt ≠ now →
          Persist.scoreQ now e ≤ Persist.scoreQ now p.2) := by
  constructor
  · rw [set_cache_eq]
    by_cases hc : s.maxSize ≤ s.cache.length
    · obtain ⟨k, e, hk, hmem, _, _, _⟩ := evictedKey_spec now s (hcand hc)
      have hev : (Persist.evictLRU now s).cache = mapDelete s.cache k := by
        unfold Persist.evictLRU
        rw [hk]
      have hkmem : k ∈ s.cache.map Prod.fst :=
        List.mem_map.mpr ⟨(k, e), hmem, rfl⟩
      have hlen_del : (mapDelete s.cache k).length + 1 = s.cache.length :=
        length_mapDelete_of_mem s.cache k
          (mapGet_isSome_of_mem_keys s.cache k hkmem)
      have hnew' : mapGet (mapDelete s.cache k) (gk key) = none :=
        mapGet_mapDelete_none s.cache (gk key) k hnew
      rw [if_pos hc, length_mapSet]
      rw [hev]
      simp only [hnew', Option.isSome_none, Bool.false_eq_true, if_false]
      omega
    · rw [if_neg hc, length_mapSet]
      simp only [hnew, Option.isSome_none, Bool.false_eq_true, if_false]
      omega
  · intro hc
    obtain ⟨k, e, hk, hmem, hexp, _, hmin⟩ := evictedKey_spec now s (hcand hc)
    exact ⟨k, e, hk, hmem, hexp, hmin⟩

/-- C2 witness: a cache at capacity (`maxSize = 1`) holding one aged,
non-expired entry; inserting a second distinct key keeps the size at 1 and
the scan selects that entry. -/
theorem claim_C2_capacity_bound_and_eviction_minimality_witness :
    ((⟨[("a", ⟨"a", 1, 100000, 0, 0⟩)], 1, 300⟩ :
        CacheState Nat).cache.length ≤ 1 ∧
      mapGet (⟨[("a", ⟨"a", 1, 100000, 0, 0⟩)], 1, 300⟩ :
        CacheState Nat).cache "b" = none) ∧
    (Persist.CacheService.set id 1000 "b" (2 : Nat) (some 60)
        (⟨[("a", ⟨"a", 1, 100000, 0, 0⟩)], 1, 300⟩ :
          CacheState Nat)).cache.length ≤ 1 := by
  refine ⟨⟨by decide, by decide⟩, ?_⟩
  have h := claim_C2_capacity_bound_and_eviction_minimality id 1000 "b"
    (2 : Nat) (some 60)
    (⟨[("a", ⟨"a", 1, 100000, 0, 0⟩)], 1, 300⟩ : CacheState Nat)
    (by decide) (by decide)
    (fun _ => ⟨("a", ⟨"a", 1, 100000, 0, 0⟩), by decide, by decide, by decide⟩)
  exact h.1

/-- C7 is violated by the persistent-variant `set`: its capacity check
`this.cache.size >= this.maxSize` does not test whether the key is already
present, so overwriting key `"a"` in a full cache (entries `"a"` with one hit
and `"b"` with none, both non-expired) evicts `"b"` — the lowest-score
entry — and shrinks the cache to one entry.  The simple variant, whose guard
includes `!this.cache.has(cacheKey)`, leaves `"b"` untouched on the same
input. -/
theorem claim_C7_overwrite_at_capacity_evicts_another_entry :
    mapGet (Persist.CacheService.set id 2000 "a" (99 : Nat) (some 60)
        { cache := [("a", ⟨"a", 10, 100000, 0, 1⟩),
                    ("b", ⟨"b", 20, 100000, 1000, 0⟩)],
          maxSize := 2, defaultTTL := 300 }).cache "b" = none ∧
    (Persist.CacheService.set id 2000 "a" (99 : Nat) (some 60)
        { cache := [("a", ⟨"a", 10, 100000, 0, 1⟩),
                    ("b", ⟨"b", 20, 100000, 1000, 0⟩)],
          maxSize := 2, defaultTTL := 300 }).cache.length = 1 ∧
    mapGet (Simple.CacheService.set id 2000 "a" (99 : Nat) (some 60)
        { cache := [("a", ⟨"a", 10, 100000, 0, 1⟩),
                    ("b", ⟨"b", 20, 100000, 1000, 0⟩)],
          maxSize := 2, defaultTTL := 300 }).cache "b" =
      some ⟨"b", 20, 100000, 1000, 0⟩ := by
  refine ⟨?_, ?_, ?_⟩
  · norm_num [Persist.CacheService.set, Persist.evictLRU, Persist.evictedKey,
      Persist.evictStep, Persist.jsScore, jsLt, jsOrNat, mapGet, mapSet,
      mapDelete, List.eraseP, List.find?, List.foldl]
    intro h
    exact absurd h (by decide)
  · norm_num [Persist.CacheService.set, Persist.evictLRU, Persist.evictedKey,
      Persist.evictStep, Persist.jsScore, jsLt, jsOrNat, mapGet, mapSet,
      mapDelete, List.eraseP, List.find?, List.foldl]
  · decide

/-! ## Single-flight refresh: state-space closure -/

theorem sfInit_mem : sfInit ∈ allSFStates := by decide

theorem sfNext_closed :
    ∀ s ∈ allSFStates, ∀ s2 ∈ sfNext s, s2 ∈ allSFStates := by decide

theorem sfReachable_mem (s : SFState) (h : SFReachable s) :
    s ∈ allSFStates := by
  induction h with
  | refl => exact sfInit_mem
  | tail _ hstep ih => exact sfNext_closed _ ih _ hstep

/-- C3 as stated — at most one in-flight refresh in every reachable client
state — is false: the 401 branch of the response interceptor awaits
`this.refreshAccessToken()` directly, bypassing the `tokenRefreshPromise`
guard that lives only in `ensureValidToken`.  Concretely, when two
outstanding requests both receive 401, the interleaving where both responses
arrive before either refresh completes reaches a state with two
token-endpoint calls in flight. -/
theorem claim_C3_dual_401_counterexample :
    I401Reachable ⟨2, 2, .refreshing, .refreshing⟩ ∧
    ¬ (⟨2, 2, .refreshing, .refreshing⟩ :
        Intercept401State).refreshInFlight ≤ 1 := by
  constructor
  · have h1 : (⟨1, 1, .refreshing, .awaitingResponse⟩ : Intercept401State) ∈
        i401Next i401Init := by decide
    have h2 : (⟨2, 2, .refreshing, .refreshing⟩ : Intercept401State) ∈
        i401Next ⟨1, 1, .refreshing, .awaitingResponse⟩ := by decide
    exact Relation.ReflTransGen.tail
      (Relation.ReflTransGen.tail Relation.ReflTransGen.refl h1) h2
  · decide

/-- C3 amended: the single-flight invariant holds for the refreshes initiated
through `ensureValidToken` (which is the path the claim's two-concurrent-
expired-callers scenario exercises; 401-interceptor refreshes bypass the
guard, see the counterexample above).  In that scenario, every interleaving
keeps at most one token-endpoint call in flight and makes at most one such
call overall; when both callers have finished, exactly one call to the token
endpoint was made and both callers observed the same refreshed token for
their `Authorization` headers. -/
theorem claim_C3_single_flight_refresh (s : SFState) (h : SFReachable s) :
    s.refreshInFlight ≤ 1 ∧ s.refreshCalls ≤ 1 ∧
    (∀ a b : Nat, s.pcA = .done a → s.pcB = .done b →
      s.refreshCalls = 1 ∧ a = b ∧ a = sfFreshToken) := by
  have hmem := sfReachable_mem s h
  have hall : ∀ s2 ∈ allSFStates, s2.refreshInFlight ≤ 1 ∧
      s2.refreshCalls ≤ 1 ∧ bothDoneSameTok s2 = true := by decide
  obtain ⟨h1, h2, h3⟩ := hall s hmem
  refine ⟨h1, h2, ?_⟩
  intro a b ha hb
  unfold bothDoneSameTok at h3
  rw [ha, hb] at h3
  simp only [Bool.and_eq_true, beq_iff_eq] at h3
  exact ⟨h3.1.1, h3.1.2, h3.2⟩

/-- C3 witness: the interleaving where caller A enters first, B joins the
in-flight refresh, the refresh completes, and A then B resume; it ends with
both callers done on the same fresh token after one endpoint call. -/
theorem claim_C3_single_flight_refresh_witness :
    SFReachable ⟨1, 4600000, false, true, 0, 1, .done 1, .done 1⟩ ∧
    (⟨1, 4600000, false, true, 0, 1, .done 1, .done 1⟩ :
        SFState).refreshCalls = 1 := by
  have hreach : SFReachable ⟨1, 4600000, false, true, 0, 1, .done 1, .done 1⟩ := by
    have h1 : (⟨0, 0, true, false, 1, 1, .waitingRefresh, .idle⟩ : SFState) ∈
        sfNext sfInit := by decide
    have h2 : (⟨0, 0, true, false, 1, 1, .waitingRefresh, .waitingRefresh⟩ :
        SFState) ∈ sfNext ⟨0, 0, true, false, 1, 1, .waitingRefresh, .idle⟩ := by
      decide
    have h3 : (⟨1, 4600000, true, true, 0, 1, .waitingRefresh,
        .waitingRefresh⟩ : SFState) ∈
        sfNext ⟨0, 0, true, false, 1, 1, .waitingRefresh, .waitingRefresh⟩ := by
      decide
    have h4 : (⟨1, 4600000, false, true, 0, 1, .done 1, .waitingRefresh⟩ :
        SFState) ∈
        sfNext ⟨1, 4600000, true, true, 0, 1, .waitingRefresh,
          .waitingRefresh⟩ := by decide
    have h5 : (⟨1, 4600000, false, true, 0, 1, .done 1, .done 1⟩ : SFState) ∈
        sfNext ⟨1, 4600000, false, true, 0, 1, .done 1, .waitingRefresh⟩ := by
      decide
    exact Relation.ReflTransGen.tail (Relation.ReflTransGen.tail
      (Relation.ReflTransGen.tail (Relation.ReflTransGen.tail
        (Relation.ReflTransGen.tail Relation.ReflTransGen.refl h1) h2) h3) h4)
      h5
  have h := claim_C3_single_flight_refresh _ hreach
  exact ⟨hreach, (h.2.2 1 1 rfl rfl).1⟩

/-! ## Rate limiter: list lemmas and the window invariant -/

theorem filter_sublist_of_imp {p q : Int → Bool}
    (h : ∀ x, p x = true → q x = true) (l : List Int) :
    List.Sublist (l.filter p) (l.filter q) := by
  induction l with
  | nil => simp
  | cons x l ih =>
      by_cases hp : p x = true
      · rw [List.filter_cons, if_pos hp, List.filter_cons, if_pos (h x hp)]
        exact List.Sublist.cons₂ x ih
      · rw [List.filter_cons, if_neg hp]
        by_cases hq : q x = true
        · rw [List.filter_cons, if_pos hq]
          exact List.Sublist.cons x ih
        · rw [List.filter_cons, if_neg hq]
          exact ih

theorem length_filter_le_of_imp {p q : Int → Bool}
    (h : ∀ x, p x = true → q x = true) (l : List Int) :
    (l.filter p).length ≤ (l.filter q).length :=
  (filter_sublist_of_imp h l).length_le

theorem filter_filter_self (p : Int → Bool) (l : List Int) :
    (l.filter p).filter p = l.filter p :=
  List.filter_eq_self.mpr (fun x hx => (List.mem_filter.mp hx).2)

theorem RLInv_initial (rate : Nat) (t0 : Int) :
    RLInv rate (RLState.initial t0) := by
  constructor
  · simp [RLState.initial]
  · intro t
    simp [RLState.initial, startsInWindow]

theorem RLInv_step {c rate : Nat} {s s2 : RLState}
    (hstep : RLStep c rate s s2) (hinv : RLInv rate s) : RLInv rate s2 := by
  obtain ⟨hW, hD⟩ := hinv
  cases hstep with
  | add => exact ⟨hW, hD⟩
  | tick d =>
      constructor
      · have himp : ∀ x : Int, decide (s.now + (d : Int) - 60000 < x) = true →
            decide (s.now - 60000 < x) = true := by
          intro x hx
          simp only [decide_eq_true_eq] at hx ⊢
          omega
        exact (filter_sublist_of_imp himp s.startLog).trans hW
      · exact hD
  | clean =>
      constructor
      · have h1 := hW.filter (fun x => decide (s.now - 60000 < x))
        rw [filter_filter_self] at h1
        exact h1
      · exact hD
  | start hp hc hr =>
      constructor
      · have hself : (decide (s.now - 60000 < s.now)) = true := by
          simp only [decide_eq_true_eq]
          omega
        rw [List.filter_append, List.filter_cons, if_pos hself,
          List.filter_nil]
        apply List.Sublist.append
        · have h1 := hW.filter (fun x => decide (s.now - 60000 < x))
          rw [filter_filter_self] at h1
          exact h1
        · exact List.Sublist.refl _
      · intro t
        unfold startsInWindow
        rw [List.filter_append]
        by_cases hin : t - 60000 < s.now ∧ s.now ≤ t
        · have hone : ([s.now].filter
              (fun x => decide (t - 60000 < x ∧ x ≤ t))).length = 1 := by
            simp [hin]
          rw [List.length_append, hone]
          have himp : ∀ x : Int, decide (t - 60000 < x ∧ x ≤ t) = true →
              decide (s.now - 60000 < x) = true := by
            intro x hx
            simp only [decide_eq_true_eq] at hx ⊢
            omega
          have h1 : (s.startLog.filter
                (fun x => decide (t - 60000 < x ∧ x ≤ t))).length ≤
              (s.startLog.filter
                (fun x => decide (s.now - 60000 < x))).length :=
            length_filter_le_of_imp himp s.startLog
          have h2 : (s.startLog.filter
                (fun x => decide (s.now - 60000 < x))).length ≤
              (s.requestsInWindow.filter
                (fun x => decide (s.now - 60000 < x))).length := by
            have hsub := hW.filter (fun x => decide (s.now - 60000 < x))
            rw [filter_filter_self] at hsub
            exact hsub.length_le
          have h3 : (s.requestsInWindow.filter
                (fun x => decide (s.now - 60000 < x))).length < rate := hr
          omega
        · have hzero : ([s.now].filter
              (fun x => decide (t - 60000 < x ∧ x ≤ t))).length = 0 := by
            simp [hin]
          rw [List.length_append, hzero]
          have := hD t
          unfold startsInWindow at this
          omega
  | finish ha => exact ⟨hW, hD⟩

theorem RLInv_reachable {c rate : Nat} {t0 : Int} {s : RLState}
    (h : RLReachable c rate t0 s) : RLInv rate s := by
  induction h with
  | refl => exact RLInv_initial rate t0
  | tail _ hstep ih => exact RLInv_step hstep ih

theorem exists_list_max (l : List Int) (h : l ≠ []) :
    ∃ M ∈ l, ∀ x ∈ l, x ≤ M := by
  induction l with
  | nil => exact absurd rfl h
  | cons a l ih =>
      rcases l with _ | ⟨b, l'⟩
      · exact ⟨a, List.mem_cons_self a [], by simp⟩
      · obtain ⟨M, hM, hmax⟩ := ih (by simp)
        by_cases hab : a ≤ M
        · refine ⟨M, List.mem_cons_of_mem a hM, ?_⟩
          intro x hx
          rcases List.mem_cons.mp hx with rfl | hx
          · exact hab
          · exact hmax x hx
        · refine ⟨a, List.mem_cons_self a _, ?_⟩
          intro x hx
          rcases List.mem_cons.mp hx with rfl | hx
          · exact le_refl x
          · exact le_trans (hmax x hx) (le_of_not_le hab)

/-- C6.  In every reachable state of the simple rate limiter, every trailing
60-second window contains at most `rate` recorded task starts (timestamps are
pruned by `cleanOldRequests` before each admission check and recorded by
`trackRequest` at the moment a task starts); consequently once `rate + 1`
starts have been recorded, some start lies a full 60 seconds after an earlier
one — the `(rate+1)`-th start can only happen after the oldest recorded
timestamp has aged out of the window. -/
theorem claim_C6_trailing_window_bound (c rate : Nat) (t0 : Int)
    (s : RLState) (h : RLReachable c rate t0 s) :
    (∀ t : Int, startsInWindow t s.startLog ≤ rate) ∧
    (s.startLog.length = rate + 1 →
      ∃ x ∈ s.startLog, ∃ y ∈ s.startLog, x + 60000 ≤ y) := by
  have hD := (RLInv_reachable h).2
  refine ⟨hD, ?_⟩
  intro hlen
  have hne : s.startLog ≠ [] := by
    intro hnil
    rw [hnil] at hlen
    simp at hlen
  obtain ⟨M, hM, hmax⟩ := exists_list_max s.startLog hne
  by_contra hc
  push_neg at hc
  have hall : ∀ a ∈ s.startLog,
      (fun x => decide (M - 60000 < x ∧ x ≤ M)) a = true := by
    intro a ha
    simp only [decide_eq_true_eq]
    have h1 := hc a ha M hM
    have h2 := hmax a ha
    constructor <;> omega
  have hfull : startsInWindow M s.startLog = rate + 1 := by
    unfold startsInWindow
    rw [List.filter_eq_self.mpr hall, hlen]
  have := hD M
  omega

/-- C6 witness: with `rate = 1` and `concurrency = 1`, the trace
add / start (at `t = 0`) / finish / tick to `t = 60001` / add / start reaches
a state whose two recorded starts are 60001 ms apart. -/
theorem claim_C6_trailing_window_bound_witness :
    RLReachable 1 1 0 ⟨0, 1, [60001], 60001, [0, 60001]⟩ ∧
    (∀ t : Int, startsInWindow t [(0 : Int), 60001] ≤ 1) ∧
    ∃ x ∈ [(0 : Int), 60001], ∃ y ∈ [(0 : Int), 60001], x + 60000 ≤ y := by
  have h1 : RLStep 1 1 (RLState.initial 0) ⟨1, 0, [], 0, []⟩ :=
    RLStep.add (RLState.initial 0)
  have h2 : RLStep 1 1 ⟨1, 0, [], 0, []⟩ ⟨0, 1, [0], 0, [0]⟩ :=
    RLStep.start ⟨1, 0, [], 0, []⟩ (by decide) (by decide) (by decide)
  have h3 : RLStep 1 1 ⟨0, 1, [0], 0, [0]⟩ ⟨0, 0, [0], 0, [0]⟩ :=
    RLStep.finish ⟨0, 1, [0], 0, [0]⟩ (by decide)
  have h4 : RLStep 1 1 ⟨0, 0, [0], 0, [0]⟩ ⟨0, 0, [0], 60001, [0]⟩ :=
    RLStep.tick ⟨0, 0, [0], 0, [0]⟩ 60001
  have h5 : RLStep 1 1 ⟨0, 0, [0], 60001, [0]⟩ ⟨1, 0, [0], 60001, [0]⟩ :=
    RLStep.add ⟨0, 0, [0], 60001, [0]⟩
  have h6 : RLStep 1 1 ⟨1, 0, [0], 60001, [0]⟩
      ⟨0, 1, [60001], 60001, [0, 60001]⟩ :=
    RLStep.start ⟨1, 0, [0], 60001, [0]⟩ (by decide) (by decide) (by decide)
  have hreach : RLReachable 1 1 0 ⟨0, 1, [60001], 60001, [0, 60001]⟩ :=
    Relation.ReflTransGen.tail (Relation.ReflTransGen.tail
      (Relation.ReflTransGen.tail (Relation.ReflTransGen.tail
        (Relation.ReflTransGen.tail (Relation.ReflTransGen.tail
          Relation.ReflTransGen.refl h1) h2) h3) h4) h5) h6
  have h := claim_C6_trailing_window_bound 1 1 0 _ hreach
  exact ⟨hreach, h.1, h.2 rfl⟩


end QBOMCP
